import Mathlib

/-!
Verification development for the met-viewer search-and-fetch orchestration
engine (`src/hooks/useMetSearch.ts` and `src/utils/met.ts`).

The TypeScript code is shallowly embedded as follows.

* Pure helpers (`buildDefaultFilename`) become Lean functions over `String`.
  JavaScript `toLowerCase` is modelled by `Char.toLower` per character (the
  titles of interest are ASCII).
* `runWithConcurrency` is embedded as an explicit state machine
  (`RunState`): the synchronous `launch` while-loop, the timing prologue of
  `startTask` (`wait = max(0, delayMs - (now - lastStart)); lastStart = now
  + wait`), and the `then/catch/finally` completion handler are each a step
  function.  The nondeterminism of the event loop (which in-flight task
  settles next, and at what `Date.now()` value) is supplied by an explicit
  schedule: a list of `(choice, now)` events.  The settled outcome of
  `worker(items[i])` is supplied by an oracle `f : Nat → TaskResult R`
  (a worker promise either fulfills or rejects; index `i` identifies the
  invocation).
* The React hook state (`useState` fields plus the `useRef` cells) becomes
  the record `HookState`.  `setX` calls are modelled as field updates; this
  matches the observable end state of React's batched updates.
* The async body of `search` is cut at its await points into atomic
  segments (code between two awaits runs synchronously, i.e. without
  interleaving, in the single-threaded event loop).  Each resumption
  segment is a function `HookState → ... → HookState × SessionPC`.
  The `try/catch/finally` structure is embedded explicitly
  (`applyCatch`, `finallyStep`).
* The `Map` object cache becomes a function `Nat → Option MetObject` with
  `Map.get`/`Map.set` semantics.
* Fallible operations (fetch, response.json, image load) settle with values
  of explicit outcome types (`FetchOutcome`, `JsonOutcome`, `ImageEvent`).
-/

/-- `TaskResult<R>` from useMetSearch.ts: `{ ok: true; value: R } |
\x7b ok: false; error: unknown }`.  The `unknown` error payload is modelled
as a `String`. -/
inductive TaskResult (R : Type) where
  | ok (value : R)
  | fail (error : String)
deriving DecidableEq

/-- The fields of a Met catalog object record that the verified code reads
(`MetObject` in src/types/met.ts; remaining fields are free-form text the
core never branches on). -/
structure MetObject where
  objectID : Nat
  title : String
  primaryImage : String
  primaryImageSmall : String
deriving DecidableEq

/-- PAGE_SIZE constant from useMetSearch.ts. -/
def PAGE_SIZE : Nat := 50

/-- MAX_CONCURRENT constant from useMetSearch.ts. -/
def MAX_CONCURRENT : Nat := 4

/-- MIN_DELAY_MS constant from useMetSearch.ts. -/
def MIN_DELAY_MS : Int := 60

/-! ### Object cache (`cacheRef.current : Map<number, MetObject>`) -/

/-- The object cache, modelled extensionally: a JavaScript `Map` keyed by
`objectID`. -/
def Cache : Type := Nat → Option MetObject

/-- `Map.get` on the object cache. -/
def cacheGet (c : Cache) (id : Nat) : Option MetObject := c id

/-- `Map.set` on the object cache. -/
def cacheSet (c : Cache) (id : Nat) (v : MetObject) : Cache :=
  fun k => if k = id then some v else c k

/-- The empty cache (`new Map()`). -/
def emptyCache : Cache := fun _ => none

/-! ### `buildDefaultFilename` (src/utils/met.ts)

`object.title.toLowerCase().replace(/[^a-z0-9]+/g, '-').replace(/^-|-$/g, '')`
followed by the `safeTitle || met-<objectID>` fallback. -/

/-- Character class `[a-z0-9]` from the sanitizing regex. -/
def isAlnum (c : Char) : Bool :=
  ('a' ≤ c && c ≤ 'z') || ('0' ≤ c && c ≤ '9')

/-- `replace(/[^a-z0-9]+/g, '-')`: every maximal run of characters outside
`[a-z0-9]` becomes a single hyphen.  The boolean argument records whether
the scanner is currently inside such a run (so the run's later characters
emit nothing). -/
def collapseRuns : Bool → List Char → List Char
  | _, [] => []
  | insideRun, c :: cs =>
    if isAlnum c then c :: collapseRuns false cs
    else if insideRun then collapseRuns true cs
    else '-' :: collapseRuns true cs

/-- The `^-` alternative of `replace(/^-|-$/g, '')`: remove one leading
hyphen. -/
def dropLeadingHyphen : List Char → List Char
  | [] => []
  | c :: cs => if c = '-' then cs else c :: cs

/-- The `-$` alternative of `replace(/^-|-$/g, '')`: remove one trailing
hyphen. -/
def dropTrailingHyphen : List Char → List Char
  | [] => []
  | [c] => if c = '-' then [] else [c]
  | c :: c2 :: cs => c :: dropTrailingHyphen (c2 :: cs)

/-- The `safeTitle` computation from `buildDefaultFilename`. -/
def sanitizeTitle (s : String) : String :=
  String.mk (dropTrailingHyphen (dropLeadingHyphen
    (collapseRuns false (s.data.map Char.toLower))))

/-- `buildDefaultFilename` from src/utils/met.ts. -/
def buildDefaultFilename (object : MetObject) : String :=
  let safeTitle := sanitizeTitle object.title
  if safeTitle = "" then "met-" ++ toString object.objectID else safeTitle

/-! ### `preloadImage` (useMetSearch.ts lines 24-34) -/

/-- How a created `Image` element settles: it either fires `onload` or
`onerror`. -/
inductive ImageEvent where
  | onload
  | onerror
deriving DecidableEq

/-- Settlement of a JavaScript promise. -/
inductive Settlement (A : Type) where
  | resolved (value : A)
  | rejected (error : String)
deriving DecidableEq

/-- `preloadImage(url?)`: resolve immediately for a falsy url (absent or
empty string); otherwise both the `onload` and the `onerror` handler call
`resolve`.  The executor installs no rejection path. -/
def preloadImage (url : Option String) (ev : ImageEvent) : Settlement Unit :=
  if url.getD "" = "" then Settlement.resolved ()
  else
    match ev with
    | ImageEvent.onload => Settlement.resolved ()
    | ImageEvent.onerror => Settlement.resolved ()

/-- The image url chosen by the preload worker in `search`:
`item.primaryImageSmall || item.primaryImage`. -/
def chosenUrl (item : MetObject) : String :=
  if item.primaryImageSmall ≠ "" then item.primaryImageSmall
  else item.primaryImage

/-- The preload worker passed to `runWithConcurrency` in `search`, as a
task outcome: its promise settles exactly as `preloadImage` does. -/
def preloadWorker (item : MetObject) (ev : ImageEvent) : TaskResult Unit :=
  match preloadImage (some (chosenUrl item)) ev with
  | Settlement.resolved v => TaskResult.ok v
  | Settlement.rejected e => TaskResult.fail e

/-! ### `runWithConcurrency` (useMetSearch.ts lines 36-85)

State of one run of the executor.  `results` is the
`new Array<TaskResult<R>>(items.length)` sparse array (`none` = hole),
`index`/`active`/`lastStart` are the closure variables, `running` is the
set of launched-but-unsettled task indices (its length is `active`), and
`launchTimes` records each task's scheduled start `now + wait` in launch
order. -/
structure RunState (R : Type) where
  n : Nat
  results : List (Option (TaskResult R))
  index : Nat
  active : Nat
  running : List Nat
  lastStart : Int
  launchTimes : List Int
deriving DecidableEq

/-- One iteration of the `while (active < limit && index < items.length)`
body together with the synchronous timing prologue of the `startTask` it
creates: `now = Date.now(); wait = max(0, delayMs - (now - lastStart));
lastStart = now + wait`.  The task is scheduled to start at `now + wait`. -/
def launchOne {R : Type} (delayMs now : Int) (s : RunState R) : RunState R :=
  let wait := max 0 (delayMs - (now - s.lastStart))
  { s with index := s.index + 1
           active := s.active + 1
           running := s.running ++ [s.index]
           lastStart := now + wait
           launchTimes := s.launchTimes ++ [now + wait] }

/-- The `launch()` while-loop.  The fuel argument is called with
`s.n - s.index`, which bounds the number of remaining launches exactly
(each iteration increments `index`, and the loop requires
`index < items.length`). -/
def launch {R : Type} (limit : Nat) (delayMs now : Int) :
    Nat → RunState R → RunState R
  | 0, s => s
  | fuel + 1, s =>
    if s.active < limit ∧ s.index < s.n then
      launch limit delayMs now fuel (launchOne delayMs now s)
    else s

/-- Settlement of one in-flight task: the `.then`/`.catch` handler stores
`{ ok: true, value }` or `{ ok: false, error }` at the task's own index
`current`, and `.finally` decrements `active`.  Which in-flight task
settles is the scheduler's choice `k` (reduced modulo the number of
in-flight tasks so that every choice is meaningful); `f j` is the settled
outcome of `worker(items[j])`.  With no task in flight there is nothing to
settle. -/
def finishOne {R : Type} (f : Nat → TaskResult R) (k : Nat) (s : RunState R) :
    RunState R :=
  if s.running = [] then s
  else
    let j := s.running.getD (k % s.running.length) 0
    { s with results := s.results.set j (some (f j))
             running := s.running.erase j
             active := s.active - 1 }

/-- One event-loop step of a run: an in-flight task settles at time `now`,
then its `.finally` calls `launch()` again. -/
def stepSim {R : Type} (limit : Nat) (delayMs : Int) (f : Nat → TaskResult R)
    (s : RunState R) (ev : Nat × Int) : RunState R :=
  let s1 := finishOne f ev.1 s
  launch limit delayMs ev.2 (s1.n - s1.index) s1

/-- The state set up by `runWithConcurrency` before the first `launch()`. -/
def initState (R : Type) (n : Nat) : RunState R :=
  { n := n
    results := List.replicate n none
    index := 0
    active := 0
    running := []
    lastStart := 0
    launchTimes := [] }

/-- A whole run of `runWithConcurrency items limit delayMs worker`: the
initial synchronous `launch()` at time `t0`, then one `stepSim` per
schedule event. -/
def runWithConcurrencySim {T R : Type} (items : List T) (limit : Nat)
    (delayMs : Int) (f : Nat → TaskResult R) (t0 : Int)
    (sched : List (Nat × Int)) : RunState R :=
  sched.foldl (stepSim limit delayMs f)
    (launch limit delayMs t0 items.length (initState R items.length))

/-- The `if (index >= items.length && active === 0) resolve(results)`
condition: the run's promise has resolved. -/
def simDone {R : Type} (s : RunState R) : Bool :=
  s.n ≤ s.index && s.active == 0

/-! ### Hook state and the `search` session (useMetSearch.ts lines 87-231)

`HookState` collects the `useState` fields, the `searchIdRef` token cell
and the `cacheRef` cell.  The `AbortController` in `abortRef` is not part
of the observable state; abort effects are reported in the `Effect` list
of `searchStart` and reflected in the admissible-settlement predicate
`ValidResumption`. -/
structure HookState where
  searchIdRef : Nat
  submittedQuery : String
  isSearching : Bool
  error : String
  results : List MetObject
  selected : Option MetObject
  selectedDetails : Option MetObject
  detailsLoading : Bool
  cache : Cache

/-- A JavaScript exception as classified by the `catch` block of `search`:
an `AbortError` `DOMException`, an `Error` (with its `.message`), or a
thrown non-`Error` value. -/
inductive JsError where
  | abortError
  | jsError (msg : String)
  | nonError
deriving DecidableEq

/-- Settlement of the `fetch(API_BASE/search?...)` call: a response
carrying its `ok` flag, or a rejection. -/
inductive FetchOutcome where
  | success (ok : Bool)
  | reject (e : JsError)
deriving DecidableEq

/-- Settlement of `response.json()`: parsed data with an optional
`objectIDs` array, or a rejection. -/
inductive JsonOutcome where
  | success (objectIDs : Option (List Nat))
  | reject (e : JsError)
deriving DecidableEq

/-- Where a `search` invocation is suspended: at one of its await points,
or returned.  `atObjects` carries the candidate id list handed to the
first `runWithConcurrency` call; `atPreload` carries the viewable items
handed to the second. -/
inductive SessionPC where
  | atSearchFetch
  | atJson
  | atObjects (ids : List Nat)
  | atPreload (withImages : List MetObject)
  | done
deriving DecidableEq

/-- The `finally` block of `search`:
`if (searchIdRef.current === searchId) setIsSearching(false)`. -/
def finallyStep (g : HookState) (searchId : Nat) : HookState :=
  if g.searchIdRef = searchId then { g with isSearching := false } else g

/-- The `catch` block of `search` (followed by the `finally` block): an
`AbortError` returns silently; otherwise
`setError(err instanceof Error ? err.message : 'Search failed')`. -/
def applyCatch (g : HookState) (searchId : Nat) (e : JsError) : HookState :=
  match e with
  | JsError.abortError => finallyStep g searchId
  | JsError.jsError msg => finallyStep { g with error := msg } searchId
  | JsError.nonError => finallyStep { g with error := "Search failed" } searchId

/-- JavaScript `String.prototype.trim`: remove leading and trailing
whitespace (modelled with `Char.isWhitespace`). -/
def trimString (s : String) : String :=
  String.mk
    (((s.data.dropWhile Char.isWhitespace).reverse.dropWhile
      Char.isWhitespace).reverse)

/-- Effects of the synchronous prologue of `search`, for stating that the
blank-query path issues no network request. -/
inductive Effect where
  | abortPrev
  | searchRequest (query : String)
deriving DecidableEq

/-- The `reset` function of the hook (lines 106-115): advance the token,
abort the outstanding controller, clear all displayed state. -/
def resetState (g : HookState) : HookState :=
  { g with searchIdRef := g.searchIdRef + 1
           submittedQuery := ""
           results := []
           isSearching := false
           error := ""
           selected := none
           selectedDetails := none }

/-- The synchronous prologue of `search(term)` up to its first await:
blank queries call `reset()` and return; otherwise the token is advanced
and captured, the previous controller aborted, the displayed state
cleared, and the search request issued.  Returns the new state, the
captured `searchId` of the new session (none for the blank-query path),
and the emitted effects. -/
def searchStart (g : HookState) (term : String) :
    HookState × Option Nat × List Effect :=
  let trimmed := trimString term
  if trimmed = "" then (resetState g, none, [Effect.abortPrev])
  else
    let searchId := g.searchIdRef + 1
    ({ g with searchIdRef := searchId
              error := ""
              isSearching := true
              submittedQuery := trimmed
              results := []
              selected := none
              selectedDetails := none },
     some searchId,
     [Effect.abortPrev, Effect.searchRequest trimmed])

/-- Resumption of `search` after `await fetch(...)` settles: a non-ok
response throws `Error('Search request failed')` into the catch block; an
ok response proceeds to `await response.json()`; a rejection goes to the
catch block. -/
def resumeSearchFetch (g : HookState) (searchId : Nat) (o : FetchOutcome) :
    HookState × SessionPC :=
  match o with
  | FetchOutcome.success ok =>
    if ok then (g, SessionPC.atJson)
    else (applyCatch g searchId (JsError.jsError "Search request failed"),
          SessionPC.done)
  | FetchOutcome.reject e => (applyCatch g searchId e, SessionPC.done)

/-- Resumption of `search` after `await response.json()` settles:
`ids = (data.objectIDs ?? []).slice(0, PAGE_SIZE)`, then the first
staleness guard `if (searchIdRef.current !== searchId) return`. -/
def resumeJson (g : HookState) (searchId : Nat) (o : JsonOutcome) :
    HookState × SessionPC :=
  match o with
  | JsonOutcome.success objectIDs =>
    let ids := (objectIDs.getD []).take PAGE_SIZE
    if g.searchIdRef ≠ searchId then (g, SessionPC.done)
    else (g, SessionPC.atObjects ids)
  | JsonOutcome.reject e => (applyCatch g searchId e, SessionPC.done)

/-- `objectResults.filter((result) => result && !result.ok).length`. -/
def countFailures (rs : List (Option (TaskResult MetObject))) : Nat :=
  (rs.filter fun r =>
    match r with
    | some (TaskResult.fail _) => true
    | _ => false).length

/-- `objectResults.flatMap((result) => result && result.ok ? [result.value] : [])`. -/
def okObjects (rs : List (Option (TaskResult MetObject))) : List MetObject :=
  rs.flatMap fun r =>
    match r with
    | some (TaskResult.ok v) => [v]
    | _ => []

/-- `objects.filter((item) => item && (item.primaryImageSmall || item.primaryImage))`. -/
def viewableResults (rs : List (Option (TaskResult MetObject))) :
    List MetObject :=
  (okObjects rs).filter fun item =>
    (item.primaryImageSmall != "") || (item.primaryImage != "")

/-- The user-facing all-failed error message. -/
def allFailedMsg : String := "All artwork requests failed. Please try again."

/-- Resumption of `search` after the first `runWithConcurrency` resolves
with `objectResults`: the second staleness guard, then failure accounting
and the viewable-image filter; the all-failed branch sets the error and
returns (through `finally`), otherwise the session proceeds to the preload
batch. -/
def resumeObjects (g : HookState) (searchId : Nat)
    (objectResults : List (Option (TaskResult MetObject))) :
    HookState × SessionPC :=
  if g.searchIdRef ≠ searchId then (g, SessionPC.done)
  else
    let withImages := viewableResults objectResults
    if withImages.length = 0 ∧ 0 < countFailures objectResults then
      (finallyStep { g with error := allFailedMsg } searchId, SessionPC.done)
    else (g, SessionPC.atPreload withImages)

/-- Resumption of `search` after the preload `runWithConcurrency`
resolves: the third staleness guard, then `setResults(withImages)` and the
`finally` block. -/
def resumePreload (g : HookState) (searchId : Nat)
    (withImages : List MetObject) : HookState × SessionPC :=
  if g.searchIdRef ≠ searchId then (g, SessionPC.done)
  else (finallyStep { g with results := withImages } searchId, SessionPC.done)

/-- A resumption event for a suspended `search` session: which await point
settles, and with what value. -/
inductive Resumption where
  | searchFetch (o : FetchOutcome)
  | jsonBody (o : JsonOutcome)
  | objectBatch (rs : List (Option (TaskResult MetObject)))
  | preloadBatch (withImages : List MetObject)

/-- Dispatch one resumption event of the session that captured
`searchId`. -/
def stepSession (g : HookState) (searchId : Nat) :
    Resumption → HookState × SessionPC
  | Resumption.searchFetch o => resumeSearchFetch g searchId o
  | Resumption.jsonBody o => resumeJson g searchId o
  | Resumption.objectBatch rs => resumeObjects g searchId rs
  | Resumption.preloadBatch w => resumePreload g searchId w

/-- Admissible settlements for a session that has been superseded
(`searchId ≠ g.searchIdRef`).  Supersession happens in the synchronous
prologue of the newer `search` (or in `reset`), which first advances the
token and then aborts the superseded session's `AbortController`.  In the
single-threaded event loop a settled await resumes in the very next
microtask checkpoint, before any later user event can run the superseding
prologue; so a continuation that finds itself superseded is resuming from
a settlement that happened after the abort, and an aborted `fetch` or
aborted body read settles only by rejecting with `AbortError`.  The two
`runWithConcurrency` awaits resolve with a plain array in every case (the
runner converts worker rejections, abort-induced ones included, into
`ok:false` entries), so they are unconstrained. -/
def ValidResumption (g : HookState) (searchId : Nat) : Resumption → Prop
  | Resumption.searchFetch o =>
      searchId ≠ g.searchIdRef → o = FetchOutcome.reject JsError.abortError
  | Resumption.jsonBody o =>
      searchId ≠ g.searchIdRef → o = JsonOutcome.reject JsError.abortError
  | Resumption.objectBatch _ => True
  | Resumption.preloadBatch _ => True

/-! ### `selectItem` (useMetSearch.ts lines 122-139) -/

/-- Settlement of the direct `fetchObject(item.objectID)` call issued by
`selectItem` on a cache miss. -/
inductive DetailOutcome where
  | success (details : MetObject)
  | failure
deriving DecidableEq

/-- `selectItem(item)`: select immediately, clear prior resolved details,
consult the cache; on a miss issue a direct fetch (no abort signal is
passed to `fetchObject`), store into the cache on success, and fall back
to the summary item on failure.  The second component lists the issued
network calls as `(objectID, signal)` pairs. -/
def selectItem (g : HookState) (item : MetObject) (o : DetailOutcome) :
    HookState × List (Nat × Option Unit) :=
  let g1 := { g with selected := some item
                     selectedDetails := none
                     detailsLoading := true }
  match cacheGet g.cache item.objectID with
  | some cached =>
    ({ g1 with selectedDetails := some cached, detailsLoading := false }, [])
  | none =>
    match o with
    | DetailOutcome.success details =>
      ({ g1 with cache := cacheSet g1.cache item.objectID details
                 selectedDetails := some details
                 detailsLoading := false },
       [(item.objectID, none)])
    | DetailOutcome.failure =>
      ({ g1 with selectedDetails := some item, detailsLoading := false },
       [(item.objectID, none)])

/-- Structural invariant of a `runWithConcurrency` run, relative to the
worker-outcome oracle `f`: the launch cursor never passes the item count,
the in-flight set holds distinct already-launched indices and its size is
`active`, and the results array holds exactly the outcomes of the
launched-and-settled tasks, each at its own index, with holes
everywhere else. -/
structure SimCore {R : Type} (f : Nat → TaskResult R) (s : RunState R) :
    Prop where
  hidx : s.index ≤ s.n
  hrun : ∀ j ∈ s.running, j < s.index
  hnodup : s.running.Nodup
  hact : s.active = s.running.length
  hlen : s.results.length = s.n
  hres : ∀ i, i < s.n →
    s.results[i]? =
      some (if i < s.index ∧ i ∉ s.running then some (f i) else none)

/-- Rest-point condition of the `launch()` while-loop: it only returns
once the concurrency limit is saturated or every item has launched. -/
def launchSaturated (limit : Nat) {R : Type} (s : RunState R) : Prop :=
  s.index < s.n → limit ≤ s.active

/-- Number of settlements still needed before the run's promise can
resolve: unlaunched items plus in-flight tasks. -/
def simMeasure {R : Type} (s : RunState R) : Nat :=
  (s.n - s.index) + s.active

/-- Timing invariant of a run: the concurrency bound holds, scheduled
launch times are spaced at least `delayMs` apart, and the `lastStart`
cursor is the most recent scheduled launch time. -/
def TimeInv (limit : Nat) (delayMs : Int) {R : Type} (s : RunState R) :
    Prop :=
  s.active ≤ limit ∧
  List.Chain' (fun a b => a + delayMs ≤ b) s.launchTimes ∧
  (s.launchTimes = [] ∨ s.launchTimes.getLast? = some s.lastStart)

/-- A concrete hook state whose current token is 2 (so token 1 is
superseded), used to instantiate theorems at concrete inputs. -/
def sampleSuperseded : HookState :=
  { searchIdRef := 2
    submittedQuery := "cats"
    isSearching := true
    error := ""
    results := []
    selected := none
    selectedDetails := none
    detailsLoading := false
    cache := emptyCache }

/-- A concrete hook state whose current token is 1, used to instantiate
theorems about the current session at concrete inputs. -/
def sampleCurrent : HookState :=
  { searchIdRef := 1
    submittedQuery := "cats"
    isSearching := true
    error := ""
    results := []
    selected := none
    selectedDetails := none
    detailsLoading := false
    cache := emptyCache }

/-- A concrete catalog item used to instantiate theorems. -/
def sampleItem : MetObject :=
  { objectID := 7
    title := "Irises"
    primaryImage := "https://img/7.jpg"
    primaryImageSmall := "https://img/7s.jpg" }

/-- Claim C1: a resumption step of a superseded `search` session (its
captured `searchId` differs from the live `searchIdRef`) leaves the hook
state untouched — no results, error, `isSearching`, submitted-query or
selection mutation, and no transition to a reported terminal state — and
the session stops (`SessionPC.done`), for every admissible settlement of
the await it resumes from. -/
theorem superseded_resumption_silent (g : HookState) (searchId : Nat)
    (r : Resumption) (hsup : searchId ≠ g.searchIdRef)
    (hv : ValidResumption g searchId r) :
    stepSession g searchId r = (g, SessionPC.done) := by
  have hne : g.searchIdRef ≠ searchId := Ne.symm hsup
  cases r with
  | searchFetch o =>
    have ho := hv hsup
    subst ho
    simp [stepSession, resumeSearchFetch, applyCatch, finallyStep, hne]
  | jsonBody o =>
    have ho := hv hsup
    subst ho
    simp [stepSession, resumeJson, applyCatch, finallyStep, hne]
  | objectBatch rs =>
    simp [stepSession, resumeObjects, hsup, hne]
  | preloadBatch w =>
    simp [stepSession, resumePreload, hsup, hne]

/-- Witness for C1 at a concrete superseded session. -/
theorem superseded_resumption_silent_witness :
    stepSession sampleSuperseded 1 (Resumption.objectBatch []) =
      (sampleSuperseded, SessionPC.done) :=
  superseded_resumption_silent sampleSuperseded 1 (Resumption.objectBatch [])
    (by decide) trivial

/-- Claim C3: for a session that is still current when its per-object
batch resolves, the all-failed error is set exactly when there are zero
viewable successes and a positive failure count (and then no results are
published); in every other case the state is untouched, the session
proceeds to the preload batch, and — still current — publishes the
viewable successes as the results without reporting any error. -/
theorem failure_accounting (g : HookState) (searchId : Nat)
    (rs : List (Option (TaskResult MetObject))) (hcur : g.searchIdRef = searchId) :
    (viewableResults rs = [] ∧ 0 < countFailures rs →
        resumeObjects g searchId rs =
          ({ g with error := allFailedMsg, isSearching := false },
           SessionPC.done)) ∧
    (¬(viewableResults rs = [] ∧ 0 < countFailures rs) →
        resumeObjects g searchId rs =
          (g, SessionPC.atPreload (viewableResults rs)) ∧
        resumePreload g searchId (viewableResults rs) =
          ({ g with results := viewableResults rs, isSearching := false },
           SessionPC.done)) ∧
    (g.error = "" →
        ((resumeObjects g searchId rs).1.error = allFailedMsg ↔
          viewableResults rs = [] ∧ 0 < countFailures rs)) := by
  subst hcur
  refine ⟨?_, ?_, ?_⟩
  · intro h
    have hl : (viewableResults rs).length = 0 := by rw [h.1]; rfl
    simp [resumeObjects, finallyStep, hl, h.2]
  · intro h
    have hcond : ¬((viewableResults rs).length = 0 ∧ 0 < countFailures rs) := by
      intro hc
      exact h ⟨List.length_eq_zero.mp hc.1, hc.2⟩
    constructor
    · simp [resumeObjects, hcond]
      intro hv
      have hl : (viewableResults rs).length = 0 := by rw [hv]; rfl
      rcases Nat.eq_zero_or_pos (countFailures rs) with h0 | hpos
      · exact h0
      · exact absurd ⟨hl, hpos⟩ hcond
    · simp [resumePreload, finallyStep]
  · intro herr
    by_cases h : viewableResults rs = [] ∧ 0 < countFailures rs
    · have hl : (viewableResults rs).length = 0 := by rw [h.1]; rfl
      simp [resumeObjects, finallyStep, hl, h.2, h]
    · have hcond : ¬((viewableResults rs).length = 0 ∧ 0 < countFailures rs) := by
        intro hc
        exact h ⟨List.length_eq_zero.mp hc.1, hc.2⟩
      simp only [resumeObjects, hcond]
      simp [herr, h]
      intro hmsg
      exact absurd hmsg (by decide)

/-- Witness for C3: with one failed fetch and no viewable success, the
current session reports the all-failed error. -/
theorem failure_accounting_witness :
    resumeObjects sampleCurrent 1 [some (TaskResult.fail "boom")] =
      ({ sampleCurrent with error := allFailedMsg, isSearching := false },
       SessionPC.done) :=
  (failure_accounting sampleCurrent 1 [some (TaskResult.fail "boom")] rfl).1
    ⟨by decide, by decide⟩

/-- Helper: `preloadImage` resolves on every input. -/
theorem preloadImage_resolved (url : Option String) (ev : ImageEvent) :
    preloadImage url ev = Settlement.resolved () := by
  unfold preloadImage
  split
  · rfl
  · cases ev <;> rfl

/-- Claim C6: `preloadImage` returns a promise that always resolves and
never rejects — for an absent or empty url as for a failed image load — so
a preload worker's task outcome is always a success and the preload phase
never changes the session's error state. -/
theorem preload_never_fails :
    (∀ (url : Option String) (ev : ImageEvent),
        preloadImage url ev = Settlement.resolved ()) ∧
    (∀ (item : MetObject) (ev : ImageEvent),
        preloadWorker item ev = TaskResult.ok ()) ∧
    (∀ (g : HookState) (searchId : Nat) (w : List MetObject),
        (resumePreload g searchId w).1.error = g.error) := by
  refine ⟨preloadImage_resolved, ?_, ?_⟩
  · intro item ev
    unfold preloadWorker
    rw [preloadImage_resolved]
  · intro g searchId w
    unfold resumePreload
    split
    · rfl
    · unfold finallyStep
      split <;> rfl

/-- Claim C7: `selectItem(item)` selects `item` immediately; a cache hit
becomes the resolved details with no network call and no cache change; a
cache miss issues one direct fetch with no abort signal, stores a
successful result into the cache and resolves it, and on failure resolves
the originally selected summary item without touching the error state. -/
theorem selectItem_contract (g : HookState) (item : MetObject)
    (o : DetailOutcome) :
    (selectItem g item o).1.selected = some item ∧
    (∀ c, cacheGet g.cache item.objectID = some c →
        (selectItem g item o).1.selectedDetails = some c ∧
        (selectItem g item o).2 = [] ∧
        (selectItem g item o).1.cache = g.cache) ∧
    (cacheGet g.cache item.objectID = none →
        (∀ d, o = DetailOutcome.success d →
            (selectItem g item o).2 = [(item.objectID, (none : Option Unit))] ∧
            cacheGet (selectItem g item o).1.cache item.objectID = some d ∧
            (selectItem g item o).1.selectedDetails = some d) ∧
        (o = DetailOutcome.failure →
            (selectItem g item o).2 = [(item.objectID, (none : Option Unit))] ∧
            (selectItem g item o).1.selectedDetails = some item ∧
            (selectItem g item o).1.error = g.error)) := by
  refine ⟨?_, ?_, ?_⟩
  · unfold selectItem
    split <;> [skip; cases o] <;> rfl
  · intro c hc
    simp [selectItem, hc]
  · intro hmiss
    constructor
    · intro d hd
      subst hd
      simp [selectItem, hmiss]
      simp [cacheGet, cacheSet]
    · intro hd
      subst hd
      simp [selectItem, hmiss]

/-- Witness for C7 at a concrete cache-miss state with a successful detail
fetch. -/
theorem selectItem_contract_witness :
    (selectItem sampleCurrent sampleItem (DetailOutcome.success sampleItem)).2 =
      [(sampleItem.objectID, (none : Option Unit))] ∧
    cacheGet (selectItem sampleCurrent sampleItem
        (DetailOutcome.success sampleItem)).1.cache sampleItem.objectID =
      some sampleItem :=
  have h := (selectItem_contract sampleCurrent sampleItem
      (DetailOutcome.success sampleItem)).2.2 rfl
  ⟨(h.1 sampleItem rfl).1, (h.1 sampleItem rfl).2.1⟩

/-- Claim C10: when the direct detail fetch of a cache miss fails, the
cache is left unchanged; only a successful fetch inserts its item. -/
theorem detail_fetch_failure_cache_unchanged (g : HookState)
    (item : MetObject) (hmiss : cacheGet g.cache item.objectID = none) :
    (selectItem g item DetailOutcome.failure).1.cache = g.cache ∧
    (∀ d, (selectItem g item (DetailOutcome.success d)).1.cache =
        cacheSet g.cache item.objectID d) := by
  constructor
  · simp [selectItem, hmiss]
  · intro d
    simp [selectItem, hmiss]

/-- Witness for C10 at a concrete cache-miss state. -/
theorem detail_fetch_failure_cache_unchanged_witness :
    (selectItem sampleCurrent sampleItem DetailOutcome.failure).1.cache =
      sampleCurrent.cache :=
  (detail_fetch_failure_cache_unchanged sampleCurrent sampleItem rfl).1

/-- Claim C9: `search(term)` with a blank (empty or all-whitespace) query
performs a full reset — token advanced (so every in-flight session is
invalidated), outstanding controller aborted, submitted query, results,
error and selection cleared, `isSearching` false — and issues no search
request. -/
theorem blank_query_resets (g : HookState) (term : String)
    (hblank : trimString term = "") :
    searchStart g term = (resetState g, none, [Effect.abortPrev]) ∧
    (searchStart g term).1.searchIdRef = g.searchIdRef + 1 ∧
    (searchStart g term).1.submittedQuery = "" ∧
    (searchStart g term).1.results = [] ∧
    (searchStart g term).1.error = "" ∧
    (searchStart g term).1.selected = none ∧
    (searchStart g term).1.selectedDetails = none ∧
    (searchStart g term).1.isSearching = false ∧
    Effect.abortPrev ∈ (searchStart g term).2.2 ∧
    (∀ q : String, Effect.searchRequest q ∉ (searchStart g term).2.2) ∧
    (∀ sid ≤ g.searchIdRef, (searchStart g term).1.searchIdRef ≠ sid) := by
  refine ⟨?_, ?_, ?_, ?_, ?_, ?_, ?_, ?_, ?_, ?_, ?_⟩ <;>
    simp [searchStart, hblank, resetState]
  intro sid hle
  omega

/-- Witness for C9 at a concrete all-whitespace query. -/
theorem blank_query_resets_witness :
    searchStart sampleCurrent "   " =
      (resetState sampleCurrent, none, [Effect.abortPrev]) :=
  (blank_query_resets sampleCurrent "   " (by decide)).1

/-- Helper: every character emitted by the collapsing regex is either in
`[a-z0-9]` or the replacement hyphen. -/
theorem mem_collapseRuns :
    ∀ (cs : List Char) (b : Bool) (c : Char),
      c ∈ collapseRuns b cs → isAlnum c = true ∨ c = '-' := by
  intro cs
  induction cs with
  | nil => intro b c h; simp [collapseRuns] at h
  | cons x xs ih =>
    intro b c h
    unfold collapseRuns at h
    by_cases hx : isAlnum x
    · rw [if_pos hx] at h
      rcases List.mem_cons.mp h with rfl | h2
      · exact Or.inl hx
      · exact ih false c h2
    · rw [if_neg hx] at h
      cases b with
      | true => exact ih true c (by simpa using h)
      | false =>
        rcases List.mem_cons.mp (by simpa using h) with rfl | h2
        · exact Or.inr rfl
        · exact ih true c h2

/-- Helper: inside a non-alphanumeric run the collapser emits nothing, so
what follows starts with an alphanumeric character if anything. -/
theorem head_collapseRuns_true :
    ∀ (cs : List Char) (c : Char),
      (collapseRuns true cs).head? = some c → isAlnum c = true := by
  intro cs
  induction cs with
  | nil => intro c h; simp [collapseRuns] at h
  | cons x xs ih =>
    intro c h
    unfold collapseRuns at h
    by_cases hx : isAlnum x
    · rw [if_pos hx] at h
      simp only [List.head?_cons, Option.some.injEq] at h
      rwa [← h]
    · rw [if_neg hx] at h
      simp only [if_pos] at h
      exact ih c (by simpa using h)

/-- Helper: in the collapser's output a hyphen is always followed by an
alphanumeric character (runs collapse to a single hyphen). -/
theorem chain_collapseRuns :
    ∀ (cs : List Char) (b : Bool),
      List.Chain' (fun a c => a = '-' → isAlnum c = true) (collapseRuns b cs) := by
  intro cs
  induction cs with
  | nil => intro b; simp [collapseRuns]
  | cons x xs ih =>
    intro b
    unfold collapseRuns
    by_cases hx : isAlnum x
    · rw [if_pos hx]
      refine List.chain'_cons'.mpr ⟨?_, ih false⟩
      intro y _ hxh
      rw [hxh] at hx
      exact absurd hx (by decide)
    · rw [if_neg hx]
      cases b with
      | true => simpa using ih true
      | false =>
        refine List.chain'_cons'.mpr ⟨?_, by simpa using ih true⟩
        intro y hy _
        exact head_collapseRuns_true xs y (by simpa using hy)

/-- Helper: removing the leading hyphen only shrinks the character set. -/
theorem mem_dropLeadingHyphen {c : Char} :
    ∀ {l : List Char}, c ∈ dropLeadingHyphen l → c ∈ l := by
  intro l h
  cases l with
  | nil => simp [dropLeadingHyphen] at h
  | cons x xs =>
    simp only [dropLeadingHyphen] at h
    split at h
    · exact List.mem_cons_of_mem x h
    · exact h

/-- Helper: removing the trailing hyphen only shrinks the character set. -/
theorem mem_dropTrailingHyphen {c : Char} :
    ∀ {l : List Char}, c ∈ dropTrailingHyphen l → c ∈ l := by
  intro l
  induction l with
  | nil => intro h; simp [dropTrailingHyphen] at h
  | cons x xs ih =>
    intro h
    cases xs with
    | nil =>
      simp only [dropTrailingHyphen] at h
      split at h
      · simp at h
      · exact h
    | cons y ys =>
      simp only [dropTrailingHyphen] at h
      rcases List.mem_cons.mp h with rfl | h2
      · exact List.mem_cons_self c (y :: ys)
      · exact List.mem_cons_of_mem x (ih h2)

/-- Helper: removing the trailing hyphen does not change the head. -/
theorem head_dropTrailingHyphen {c : Char} :
    ∀ {l : List Char}, (dropTrailingHyphen l).head? = some c →
      l.head? = some c := by
  intro l h
  cases l with
  | nil => simp [dropTrailingHyphen] at h
  | cons x xs =>
    cases xs with
    | nil =>
      simp only [dropTrailingHyphen] at h
      split at h
      · simp at h
      · simpa using h
    | cons y ys =>
      simp only [dropTrailingHyphen] at h
      simpa using h

/-- Helper: removing the trailing hyphen preserves any chain relation. -/
theorem chain_dropTrailingHyphen {R : Char → Char → Prop} :
    ∀ {l : List Char}, List.Chain' R l →
      List.Chain' R (dropTrailingHyphen l) := by
  intro l
  induction l with
  | nil => intro _; simp [dropTrailingHyphen]
  | cons x xs ih =>
    intro h
    cases xs with
    | nil =>
      simp only [dropTrailingHyphen]
      split <;> simp
    | cons y ys =>
      simp only [dropTrailingHyphen]
      refine List.chain'_cons'.mpr ⟨?_, ih h.tail⟩
      intro z hz
      have hzy : (y :: ys).head? = some z :=
        head_dropTrailingHyphen (Option.mem_def.mp hz)
      simp only [List.head?_cons, Option.some.injEq] at hzy
      rw [← hzy]
      exact (List.chain'_cons.mp h).1

/-- Helper: with hyphens followed by alphanumerics, dropping the trailing
hyphen leaves no hyphen at the end. -/
theorem getLast_dropTrailingHyphen :
    ∀ {l : List Char},
      List.Chain' (fun a c => a = '-' → isAlnum c = true) l →
      (dropTrailingHyphen l).getLast? ≠ some '-' := by
  intro l
  induction l with
  | nil => intro _; simp [dropTrailingHyphen]
  | cons x xs ih =>
    intro h
    cases xs with
    | nil =>
      simp only [dropTrailingHyphen]
      split
      · simp
      · next hx => simp [hx]
    | cons y ys =>
      simp only [dropTrailingHyphen]
      cases ht : dropTrailingHyphen (y :: ys) with
      | nil =>
        have hy : y = '-' ∧ ys = [] := by
          cases ys with
          | nil =>
            simp only [dropTrailingHyphen] at ht
            constructor
            · by_contra hy
              rw [if_neg hy] at ht
              exact List.cons_ne_nil y [] ht
            · rfl
          | cons z zs => simp [dropTrailingHyphen] at ht
        have hxn : x ≠ '-' := by
          intro hx
          have := (List.chain'_cons.mp h).1 hx
          rw [hy.1] at this
          exact absurd this (by decide)
        simp [hxn]
      | cons c cs =>
        rw [List.getLast?_cons_cons, ← ht]
        exact ih h.tail

/-- Helper: with hyphens followed by alphanumerics, dropping the leading
hyphen leaves no hyphen at the front. -/
theorem head_dropLeadingHyphen :
    ∀ {l : List Char},
      List.Chain' (fun a c => a = '-' → isAlnum c = true) l →
      (dropLeadingHyphen l).head? ≠ some '-' := by
  intro l h
  cases l with
  | nil => simp [dropLeadingHyphen]
  | cons x xs =>
    simp only [dropLeadingHyphen]
    split
    · next hx =>
      intro hh
      have := (List.chain'_cons'.mp h).1 '-' (Option.mem_def.mpr hh) hx
      exact absurd this (by decide)
    · next hx => simp [hx]

/-- Helper: removing the leading hyphen preserves any chain relation. -/
theorem chain_dropLeadingHyphen {R : Char → Char → Prop} :
    ∀ {l : List Char}, List.Chain' R l →
      List.Chain' R (dropLeadingHyphen l) := by
  intro l h
  cases l with
  | nil => exact h
  | cons x xs =>
    simp only [dropLeadingHyphen]
    split
    · exact h.tail
    · exact h

/-- Claim C8: `buildDefaultFilename` lower-cases the title, replaces every
maximal run of characters outside `[a-z0-9]` by a single hyphen, strips
the leading/trailing hyphen, and returns the result, falling back to
`met-<objectID>` when the sanitized title is empty; the sanitized title
contains only `[a-z0-9]` and hyphens, never starts or ends with a hyphen,
and every hyphen is followed by an alphanumeric character (no collapsed
run yields two adjacent hyphens).  In particular the two specified
examples hold. -/
theorem buildDefaultFilename_spec :
    (∀ o : MetObject, sanitizeTitle o.title ≠ "" →
        buildDefaultFilename o = sanitizeTitle o.title) ∧
    (∀ o : MetObject, sanitizeTitle o.title = "" →
        buildDefaultFilename o = "met-" ++ toString o.objectID) ∧
    (∀ s : String,
        (∀ c ∈ (sanitizeTitle s).data, isAlnum c = true ∨ c = '-') ∧
        (sanitizeTitle s).data.head? ≠ some '-' ∧
        (sanitizeTitle s).data.getLast? ≠ some '-' ∧
        List.Chain' (fun a c => a = '-' → isAlnum c = true)
          (sanitizeTitle s).data) ∧
    buildDefaultFilename
        { objectID := 42, title := "Water Lilies!!",
          primaryImage := "", primaryImageSmall := "" } = "water-lilies" ∧
    buildDefaultFilename
        { objectID := 42, title := "***",
          primaryImage := "", primaryImageSmall := "" } = "met-42" := by
  refine ⟨?_, ?_, ?_, by decide, by decide⟩
  · intro o h
    simp [buildDefaultFilename, h]
  · intro o h
    simp [buildDefaultFilename, h]
  · intro s
    have hchain := chain_collapseRuns (s.data.map Char.toLower) false
    refine ⟨?_, ?_, ?_, ?_⟩
    · intro c hc
      exact mem_collapseRuns _ false c
        (mem_dropLeadingHyphen (mem_dropTrailingHyphen hc))
    · intro hh
      exact head_dropLeadingHyphen hchain (head_dropTrailingHyphen hh)
    · exact getLast_dropTrailingHyphen (chain_dropLeadingHyphen hchain)
    · exact chain_dropTrailingHyphen (chain_dropLeadingHyphen hchain)

/-- Witness for C8 at a concrete title with a nonempty sanitization. -/
theorem buildDefaultFilename_spec_witness :
    buildDefaultFilename
        { objectID := 7, title := "Irises",
          primaryImage := "", primaryImageSmall := "" } =
      sanitizeTitle "Irises" :=
  buildDefaultFilename_spec.1
    { objectID := 7, title := "Irises",
      primaryImage := "", primaryImageSmall := "" } (by decide)

/-! ### Task-runner invariants -/

/-- Helper: a property preserved by every step is preserved by a whole
schedule. -/
theorem foldl_pres {R : Type} {P : RunState R → Prop}
    (step : RunState R → Nat × Int → RunState R)
    (hstep : ∀ s e, P s → P (step s e)) :
    ∀ (sched : List (Nat × Int)) (s : RunState R),
      P s → P (sched.foldl step s) := by
  intro sched
  induction sched with
  | nil => intro s hs; exact hs
  | cons e es ih => intro s hs; exact ih _ (hstep s e hs)

/-- Helper: a property preserved by each guarded launch is preserved by
the launch loop. -/
theorem launch_pres {R : Type} {P : RunState R → Prop} (limit : Nat)
    (delayMs now : Int)
    (hP : ∀ s : RunState R, s.active < limit → s.index < s.n → P s →
      P (launchOne delayMs now s)) :
    ∀ (fuel : Nat) (s : RunState R), P s →
      P (launch limit delayMs now fuel s) := by
  intro fuel
  induction fuel with
  | zero => intro s hs; exact hs
  | succ fuel ih =>
    intro s hs
    unfold launch
    split
    · next h => exact ih _ (hP s h.1 h.2 hs)
    · exact hs

/-- Helper: field projections of a launch step. -/
theorem launchOne_fields {R : Type} (delayMs now : Int) (s : RunState R) :
    (launchOne delayMs now s).n = s.n ∧
    (launchOne delayMs now s).index = s.index + 1 ∧
    (launchOne delayMs now s).active = s.active + 1 ∧
    (launchOne delayMs now s).running = s.running ++ [s.index] ∧
    (launchOne delayMs now s).results = s.results ∧
    (launchOne delayMs now s).lastStart =
      now + max 0 (delayMs - (now - s.lastStart)) ∧
    (launchOne delayMs now s).launchTimes =
      s.launchTimes ++ [now + max 0 (delayMs - (now - s.lastStart))] :=
  ⟨rfl, rfl, rfl, rfl, rfl, rfl, rfl⟩

/-- Helper: the launch loop ends at a rest point when given fuel for every
remaining item. -/
theorem launch_saturated {R : Type} (limit : Nat) (delayMs now : Int) :
    ∀ (fuel : Nat) (s : RunState R), s.n - s.index ≤ fuel →
      launchSaturated limit (launch limit delayMs now fuel s) := by
  intro fuel
  induction fuel with
  | zero =>
    intro s hfuel
    simp only [launch]
    intro hlt
    omega
  | succ fuel ih =>
    intro s hfuel
    unfold launch
    split
    · next h =>
      apply ih
      rw [(launchOne_fields delayMs now s).1,
        (launchOne_fields delayMs now s).2.1]
      omega
    · next h =>
      intro hlt
      by_contra hle
      exact h ⟨by omega, hlt⟩

/-- Helper: the scheduled start of a launch is
`max now (lastStart + delayMs)`. -/
theorem now_wait_eq (delayMs now lastStart : Int) :
    now + max 0 (delayMs - (now - lastStart)) = max now (lastStart + delayMs) := by
  rcases le_total (delayMs - (now - lastStart)) 0 with h | h
  · rw [max_eq_left h, max_eq_left (by omega)]
    omega
  · rw [max_eq_right h, max_eq_right (by omega)]
    omega

/-- Helper: a guarded launch preserves the timing invariant, spacing the
new scheduled start at least `delayMs` after the previous one. -/
theorem launchOne_time_inv {R : Type} (limit : Nat) (delayMs now : Int)
    (s : RunState R) (ha : s.active < limit)
    (h : TimeInv limit delayMs s) :
    TimeInv limit delayMs (launchOne delayMs now s) := by
  obtain ⟨h1, h2, h3⟩ := h
  obtain ⟨hn, hidx, hact, hrun, hres, hlast, htimes⟩ :=
    launchOne_fields delayMs now s
  refine ⟨?_, ?_, ?_⟩
  · rw [hact]; omega
  · rw [htimes, now_wait_eq]
    refine List.chain'_append.mpr ⟨h2, List.chain'_singleton _, ?_⟩
    intro x hx y hy
    rcases h3 with hnil | hlast2
    · rw [hnil] at hx; simp at hx
    · rw [hlast2] at hx
      simp only [Option.mem_def, Option.some.injEq] at hx
      simp only [List.head?_cons, Option.mem_def, Option.some.injEq] at hy
      subst hx
      subst hy
      exact le_trans (le_refl _) (le_max_right now (s.lastStart + delayMs))
  · right
    rw [htimes, hlast, now_wait_eq]
    rw [List.getLast?_concat]

/-- Helper: a settlement preserves the timing invariant (it only
decrements `active`). -/
theorem finishOne_time_inv {R : Type} (limit : Nat) (delayMs : Int)
    (f : Nat → TaskResult R) (k : Nat) (s : RunState R)
    (h : TimeInv limit delayMs s) :
    TimeInv limit delayMs (finishOne f k s) := by
  obtain ⟨h1, h2, h3⟩ := h
  unfold finishOne
  split
  · exact ⟨h1, h2, h3⟩
  · exact ⟨le_trans (Nat.sub_le _ _) h1, h2, h3⟩

/-- Helper: the timing invariant holds after a whole simulated run. -/
theorem runSim_time_inv {T R : Type} (items : List T) (limit : Nat)
    (delayMs t0 : Int) (f : Nat → TaskResult R) (sched : List (Nat × Int)) :
    TimeInv limit delayMs (runWithConcurrencySim items limit delayMs f t0 sched) := by
  have hstep : ∀ (s : RunState R) (e : Nat × Int),
      TimeInv limit delayMs s → TimeInv limit delayMs (stepSim limit delayMs f s e) := by
    intro s e hs
    unfold stepSim
    exact launch_pres limit delayMs e.2
      (fun s2 ha _ hp => launchOne_time_inv limit delayMs e.2 s2 ha hp) _ _
      (finishOne_time_inv limit delayMs f e.1 s hs)
  have hinit : TimeInv limit delayMs (initState R items.length) :=
    ⟨Nat.zero_le _, List.chain'_nil, Or.inl rfl⟩
  exact foldl_pres _ hstep sched _
    (launch_pres limit delayMs t0
      (fun s2 ha _ hp => launchOne_time_inv limit delayMs t0 s2 ha hp)
      items.length _ hinit)

/-- Claim C2: for every concurrency limit `C ≥ 1` and minimum inter-launch
delay `D ≥ 0`, a `runWithConcurrency` run never has more than `C` workers
simultaneously active (under any schedule, hence at every point of any
execution), and consecutive scheduled launch times differ by at least `D`,
via the monotonically advancing `lastStart` cursor
(`wait = max(0, D - (now - lastStart)); lastStart = now + wait`). -/
theorem runner_concurrency_and_spacing {T R : Type} (items : List T)
    (limit : Nat) (delayMs t0 : Int) (f : Nat → TaskResult R)
    (sched : List (Nat × Int)) (_hC : 1 ≤ limit) (_hD : 0 ≤ delayMs) :
    (runWithConcurrencySim items limit delayMs f t0 sched).active ≤ limit ∧
    List.Chain' (fun a b => a + delayMs ≤ b)
      (runWithConcurrencySim items limit delayMs f t0 sched).launchTimes := by
  have h := runSim_time_inv items limit delayMs t0 f sched
  exact ⟨h.1, h.2.1⟩

/-- Witness for C2 at a concrete two-item run with limit 2 and delay 60. -/
theorem runner_concurrency_and_spacing_witness :
    (runWithConcurrencySim [10, 20] 2 60 (fun i => TaskResult.ok i) 1000
        [(0, 1100), (0, 1200)]).active ≤ 2 :=
  (runner_concurrency_and_spacing [10, 20] 2 60 1000 (fun i => TaskResult.ok i)
    [(0, 1100), (0, 1200)] (by decide) (by decide)).1

/-- Helper: a guarded launch preserves the structural invariant. -/
theorem launchOne_core {R : Type} (f : Nat → TaskResult R)
    (delayMs now : Int) (s : RunState R) (hlt : s.index < s.n)
    (hc : SimCore f s) : SimCore f (launchOne delayMs now s) := by
  obtain ⟨hn, hidx2, hact, hrun2, hres2, hlast, htimes⟩ :=
    launchOne_fields delayMs now s
  refine ⟨?_, ?_, ?_, ?_, ?_, ?_⟩
  · rw [hn, hidx2]; omega
  · rw [hrun2, hidx2]
    intro j hj
    rcases List.mem_append.mp hj with hj | hj
    · have := hc.hrun j hj
      omega
    · simp only [List.mem_singleton] at hj
      omega
  · rw [hrun2]
    rw [List.nodup_append]
    refine ⟨hc.hnodup, List.nodup_singleton _, ?_⟩
    intro j hj hj2
    simp only [List.mem_singleton] at hj2
    rw [hj2] at hj
    exact absurd (hc.hrun _ hj) (by omega)
  · rw [hact, hrun2, List.length_append]
    simp [hc.hact]
  · rw [hres2, hn]
    exact hc.hlen
  · intro i hi
    rw [hn] at hi
    rw [hres2, hc.hres i hi, hidx2, hrun2]
    by_cases h1 : i < s.index ∧ i ∉ s.running
    · rw [if_pos h1, if_pos]
      refine ⟨by omega, ?_⟩
      intro hmem
      rcases List.mem_append.mp hmem with hm | hm
      · exact h1.2 hm
      · simp only [List.mem_singleton] at hm
        omega
    · rw [if_neg h1, if_neg]
      intro h2
      apply h1
      refine ⟨?_, ?_⟩
      · rcases Nat.lt_or_ge i s.index with h3 | h3
        · exact h3
        · exfalso
          have hni : i = s.index := by omega
          exact h2.2 (List.mem_append.mpr (Or.inr (by simp [hni])))
      · intro hm
        exact h2.2 (List.mem_append.mpr (Or.inl hm))

/-- Helper: settling the in-flight task `j` stores its outcome at index
`j` and removes it from the in-flight set, preserving the structural
invariant. -/
theorem finish_core_aux {R : Type} (f : Nat → TaskResult R) (s : RunState R)
    (j : Nat) (hj : j ∈ s.running) (hc : SimCore f s) :
    SimCore f
      { s with results := s.results.set j (some (f j))
               running := s.running.erase j
               active := s.active - 1 } := by
  have hjidx : j < s.index := hc.hrun j hj
  have hjn : j < s.n := lt_of_lt_of_le hjidx hc.hidx
  refine ⟨hc.hidx, ?_, ?_, ?_, ?_, ?_⟩
  · intro i hi
    exact hc.hrun i (List.erase_subset _ _ hi)
  · exact hc.hnodup.erase j
  · show s.active - 1 = (s.running.erase j).length
    rw [List.length_erase_of_mem hj, hc.hact]
  · show (s.results.set j (some (f j))).length = s.n
    rw [List.length_set, hc.hlen]
  · intro i hi
    show (s.results.set j (some (f j)))[i]? = _
    rw [List.getElem?_set]
    by_cases hij : j = i
    · subst hij
      rw [if_pos rfl, if_pos (by rw [hc.hlen]; exact hi), if_pos]
      exact ⟨hjidx, hc.hnodup.not_mem_erase⟩
    · rw [if_neg hij, hc.hres i hi]
      by_cases h1 : i < s.index ∧ i ∉ s.running
      · rw [if_pos h1, if_pos]
        exact ⟨h1.1, fun hm => h1.2 (List.erase_subset _ _ hm)⟩
      · rw [if_neg h1, if_neg]
        intro h2
        apply h1
        refine ⟨h2.1, fun hm => h2.2 ?_⟩
        exact (List.mem_erase_of_ne (fun he => hij he.symm)).mpr hm

/-- Helper: a settlement step preserves the structural invariant. -/
theorem finishOne_core {R : Type} (f : Nat → TaskResult R) (k : Nat)
    (s : RunState R) (hc : SimCore f s) : SimCore f (finishOne f k s) := by
  unfold finishOne
  split
  · exact hc
  · next hne =>
    have hlen0 : 0 < s.running.length := List.length_pos.mpr hne
    have hpos : k % s.running.length < s.running.length := Nat.mod_lt _ hlen0
    have hmem : s.running.getD (k % s.running.length) 0 ∈ s.running := by
      rw [List.getD_eq_getElem _ _ hpos]
      exact List.getElem_mem _
    exact finish_core_aux f s _ hmem hc

/-- Helper: launching does not change the pending-settlement count. -/
theorem launch_measure {R : Type} (limit : Nat) (delayMs now : Int)
    (fuel : Nat) (s : RunState R) :
    simMeasure (launch limit delayMs now fuel s) = simMeasure s := by
  refine @launch_pres R (fun s2 => simMeasure s2 = simMeasure s) limit delayMs
    now ?_ fuel s rfl
  intro s2 _ hlt hp
  rw [← hp]
  unfold simMeasure
  rw [(launchOne_fields delayMs now s2).1, (launchOne_fields delayMs now s2).2.1,
    (launchOne_fields delayMs now s2).2.2.1]
  omega

/-- Helper: the run's item count is a constant of the simulation. -/
theorem runSim_n {T R : Type} (items : List T) (limit : Nat)
    (delayMs t0 : Int) (f : Nat → TaskResult R) (sched : List (Nat × Int)) :
    (runWithConcurrencySim items limit delayMs f t0 sched).n = items.length := by
  have hl : ∀ (now : Int) (fuel : Nat) (s : RunState R),
      (launch limit delayMs now fuel s).n = s.n := by
    intro now fuel s
    exact @launch_pres R (fun s2 => s2.n = s.n) limit delayMs now
      (fun s2 _ _ hp => hp) fuel s rfl
  have hstep : ∀ (s : RunState R) (e : Nat × Int),
      s.n = items.length → (stepSim limit delayMs f s e).n = items.length := by
    intro s e hs
    unfold stepSim
    rw [hl]
    unfold finishOne
    split
    · exact hs
    · exact hs
  exact foldl_pres _ hstep sched _ (by rw [hl]; rfl)

/-- Helper: a settlement with tasks in flight reduces the
pending-settlement count by one. -/
theorem finishOne_measure {R : Type} (f : Nat → TaskResult R) (k : Nat)
    (s : RunState R) (hne : s.running ≠ []) (hc : SimCore f s) :
    simMeasure (finishOne f k s) + 1 = simMeasure s := by
  have hpos : 0 < s.running.length := List.length_pos.mpr hne
  unfold finishOne
  rw [if_neg hne]
  unfold simMeasure
  show s.n - s.index + (s.active - 1) + 1 = s.n - s.index + s.active
  rw [hc.hact]
  omega

/-- Helper: with no task in flight and a saturated launch loop, a step is
a stutter: there is nothing to settle and nothing left to launch. -/
theorem stepSim_stuck {R : Type} (limit : Nat) (delayMs : Int)
    (f : Nat → TaskResult R) (s : RunState R) (e : Nat × Int)
    (hC : 1 ≤ limit) (hc : SimCore f s) (hsat : launchSaturated limit s)
    (hr : s.running = []) : stepSim limit delayMs f s e = s := by
  have hidx : s.n ≤ s.index := by
    by_contra hlt
    have := hsat (by omega)
    rw [hc.hact, hr] at this
    simp at this
    omega
  unfold stepSim
  have hfin : finishOne f e.1 s = s := by
    unfold finishOne
    rw [if_pos hr]
  rw [hfin]
  show launch limit delayMs e.2 (s.n - s.index) s = s
  have hz : s.n - s.index = 0 := by omega
  rw [hz]
  rfl

/-- Helper: every step keeps the structural invariant and returns to a
rest point of the launch loop. -/
theorem stepSim_full {R : Type} (limit : Nat) (delayMs : Int)
    (f : Nat → TaskResult R) (s : RunState R) (e : Nat × Int)
    (hc : SimCore f s) :
    SimCore f (stepSim limit delayMs f s e) ∧
    launchSaturated limit (stepSim limit delayMs f s e) := by
  unfold stepSim
  constructor
  · exact launch_pres limit delayMs e.2
      (fun s2 _ hlt hp => launchOne_core f delayMs e.2 s2 hlt hp) _ _
      (finishOne_core f e.1 s hc)
  · exact launch_saturated limit delayMs e.2 _ _ (le_refl _)

/-- Helper: a schedule long enough to settle every pending task drives the
run to completion (pending count zero). -/
theorem runSim_complete_aux {R : Type} (limit : Nat) (delayMs : Int)
    (f : Nat → TaskResult R) (hC : 1 ≤ limit) :
    ∀ (sched : List (Nat × Int)) (s : RunState R),
      SimCore f s → launchSaturated limit s →
      simMeasure s ≤ sched.length →
      SimCore f (sched.foldl (stepSim limit delayMs f) s) ∧
      launchSaturated limit (sched.foldl (stepSim limit delayMs f) s) ∧
      simMeasure (sched.foldl (stepSim limit delayMs f) s) = 0 := by
  intro sched
  induction sched with
  | nil =>
    intro s hc hsat hm
    exact ⟨hc, hsat, by simpa using hm⟩
  | cons e es ih =>
    intro s hc hsat hm
    rw [List.foldl_cons]
    by_cases hr : s.running = []
    · rw [stepSim_stuck limit delayMs f s e hC hc hsat hr]
      have hz : simMeasure s = 0 := by
        have hidx : s.n ≤ s.index := by
          by_contra hlt
          have := hsat (by omega)
          rw [hc.hact, hr] at this
          simp at this
          omega
        have ha : s.active = 0 := by rw [hc.hact, hr]; rfl
        unfold simMeasure
        omega
      exact ih s hc hsat (by omega)
    · have hdec := finishOne_measure f e.1 s hr hc
      have hfull := stepSim_full limit delayMs f s e hc
      have hms : simMeasure (stepSim limit delayMs f s e) + 1 = simMeasure s := by
        unfold stepSim
        rw [launch_measure]
        exact hdec
      refine ih (stepSim limit delayMs f s e) hfull.1 hfull.2 ?_
      simp only [List.length_cons] at hm
      omega

/-- Helper: with limit at least one and a schedule at least as long as the
item list, a simulated `runWithConcurrency` run resolves (`simDone`) with
the outcome of input item `i` stored at index `i` for every `i`. -/
theorem runSim_complete {T R : Type} (items : List T) (limit : Nat)
    (delayMs t0 : Int) (f : Nat → TaskResult R) (sched : List (Nat × Int))
    (hC : 1 ≤ limit) (hsched : items.length ≤ sched.length) :
    (runWithConcurrencySim items limit delayMs f t0 sched).results =
      (List.range items.length).map (fun i => some (f i)) ∧
    simDone (runWithConcurrencySim items limit delayMs f t0 sched) = true := by
  have hinit : SimCore f (initState R items.length) := by
    refine ⟨Nat.zero_le _, ?_, List.nodup_nil, rfl, ?_, ?_⟩
    · intro j hj
      simp [initState] at hj
    · simp [initState]
    · intro i hi
      show (List.replicate items.length (none : Option (TaskResult R)))[i]? = _
      have hcond : ¬(i < (initState R items.length).index ∧
          i ∉ (initState R items.length).running) := by
        intro h2
        have h3 : i < 0 := h2.1
        omega
      rw [List.getElem?_replicate, if_pos (show i < items.length from hi),
        if_neg hcond]
  have hlaunched := @launch_pres R (SimCore f) limit delayMs t0
    (fun s2 _ hlt hp => launchOne_core f delayMs t0 s2 hlt hp)
    items.length (initState R items.length) hinit
  have hsat := launch_saturated limit delayMs t0 items.length
    (initState R items.length) (by simp [initState])
  have hm : simMeasure (launch limit delayMs t0 items.length
      (initState R items.length)) ≤ sched.length := by
    rw [launch_measure]
    unfold simMeasure
    simp [initState]
    omega
  have hfin := runSim_complete_aux limit delayMs f hC sched _ hlaunched hsat hm
  obtain ⟨hcf, _, hmf⟩ := hfin
  have hn := runSim_n items limit delayMs t0 f sched
  set sFin := runWithConcurrencySim items limit delayMs f t0 sched with hsfin
  have hcf2 : SimCore f sFin := hcf
  have hmf2 : simMeasure sFin = 0 := hmf
  have hidxf : sFin.n ≤ sFin.index := by
    unfold simMeasure at hmf2
    omega
  have haf : sFin.active = 0 := by
    unfold simMeasure at hmf2
    omega
  have hrf : sFin.running = [] := by
    rw [hcf2.hact] at haf
    exact List.length_eq_zero.mp haf
  constructor
  · apply List.ext_getElem?
    intro i
    by_cases hi : i < items.length
    · rw [hcf2.hres i (by omega), if_pos ⟨by omega, by rw [hrf]; simp⟩]
      rw [List.getElem?_map, List.getElem?_range hi]
      rfl
    · rw [List.getElem?_eq_none, List.getElem?_eq_none]
      · simp
        omega
      · rw [hcf2.hlen]
        omega
  · unfold simDone
    simp
    constructor
    · omega
    · exact haf

/-- Claim C5: the resolved outcome array of a `runWithConcurrency` run
preserves input order exactly — the outcome stored at index `i` is the
outcome of input item `i` — for every schedule (i.e. regardless of the
order in which workers complete). -/
theorem runner_order_preserved {T R : Type} (items : List T) (limit : Nat)
    (delayMs t0 : Int) (f : Nat → TaskResult R) (sched : List (Nat × Int))
    (hC : 1 ≤ limit) (hsched : items.length ≤ sched.length) :
    (runWithConcurrencySim items limit delayMs f t0 sched).results =
      (List.range items.length).map (fun i => some (f i)) :=
  (runSim_complete items limit delayMs t0 f sched hC hsched).1

/-- Witness for C5 at a concrete three-item run with an adversarial
completion order (last launched settles first). -/
theorem runner_order_preserved_witness :
    (runWithConcurrencySim [10, 20, 30] 2 0 (fun i => TaskResult.ok i) 0
        [(1, 0), (1, 0), (0, 0)]).results =
      (List.range 3).map (fun i => some (TaskResult.ok i)) :=
  runner_order_preserved [10, 20, 30] 2 0 0 (fun i => TaskResult.ok i)
    [(1, 0), (1, 0), (0, 0)] (by decide) (by decide)

/-- Claim C4: one worker's rejection never aborts sibling items or the
whole run — each item's outcome is captured individually — and when every
one of the `N` workers fails the run still resolves (`simDone`) with
exactly `N` failure outcomes. -/
theorem runner_failure_isolation {T R : Type} (items : List T) (limit : Nat)
    (delayMs t0 : Int) (e : Nat → String) (sched : List (Nat × Int))
    (hC : 1 ≤ limit) (hsched : items.length ≤ sched.length) :
    simDone (runWithConcurrencySim items limit delayMs
        (fun i => (TaskResult.fail (e i) : TaskResult R)) t0 sched) = true ∧
    (runWithConcurrencySim items limit delayMs
        (fun i => (TaskResult.fail (e i) : TaskResult R)) t0 sched).results =
      (List.range items.length).map (fun i => some (TaskResult.fail (e i))) ∧
    ((runWithConcurrencySim items limit delayMs
        (fun i => (TaskResult.fail (e i) : TaskResult R)) t0 sched).results.filter
      (fun r => match r with
        | some (TaskResult.fail _) => true
        | _ => false)).length = items.length := by
  have h := runSim_complete items limit delayMs t0
    (fun i => (TaskResult.fail (e i) : TaskResult R)) sched hC hsched
  refine ⟨h.2, h.1, ?_⟩
  rw [h.1, List.filter_eq_self.mpr]
  · simp
  · intro a ha
    rcases List.mem_map.mp ha with ⟨_i, _, rfl⟩
    rfl

/-- Witness for C4 at a concrete run in which all three workers fail. -/
theorem runner_failure_isolation_witness :
    simDone (runWithConcurrencySim [10, 20, 30] 4 60
        (fun _ => (TaskResult.fail "network error" : TaskResult Nat)) 0
        [(0, 0), (0, 0), (0, 0)]) = true :=
  (runner_failure_isolation [10, 20, 30] 4 60 0 (fun _ => "network error")
    [(0, 0), (0, 0), (0, 0)] (by decide) (by decide)).1
